import Mathlib

set_option maxHeartbeats 1000000

/-!
Verification of the dual-frontend wormhole facade (`src/wormhole/wormhole.py`).

The file shallowly embeds the two frontend classes:

* `_DeferredWormhole` becomes the structure `DeferredWormhole` (its mutable
  attributes become fields) together with one Lean function per method.
  Twisted `Deferred` objects are modelled by identifiers (`Nat`, allocated by a
  counter field) plus an append-only resolution log `Log`: an entry `(d, o)`
  records that deferred `d` was fired with outcome `o`.  Firing a deferred that
  already has an entry raises `AlreadyCalledError`, which the model reports with
  a `Bool` flag (`true` = the method aborted mid-loop with that exception, as
  the Python for-loop would).
* `_DelegatedWormhole`'s command methods become `DelegatedWormhole.*`; both
  frontends' calls into the Boss are recorded as `BossCall` values naming the
  Boss attribute invoked and the arguments passed, since the Boss itself is an
  external collaborator.

Python truthiness tests (`if self._code:` etc.) are translated exactly:
`None` and the empty string / empty bytes are falsy.
-/

/-- Byte strings (Python `bytes` values: verifiers, plaintexts) as lists of
naturals. -/
abbrev Bytes := List Nat

/-- Result value handed to `closed(result)`: either a plain (non-exception)
value or an instance of `WormholeError` (imported from `_boss`). -/
inductive WResult where
  | value (v : String)
  | wormholeError (msg : String)
deriving DecidableEq

/-- Exception used to errback pending waiters when the wormhole closes:
either the `WormholeError` itself or `WormholeClosed(result)` wrapping a
non-error result (class `WormholeClosed` at line 72 of the source). -/
inductive WException where
  | wormholeErr (msg : String)
  | wormholeClosed (v : String)
deriving DecidableEq

/-- Branch at lines 150-153 of `closed`:
`e = result if isinstance(result, WormholeError) else WormholeClosed(result)`. -/
def closeToException : WResult → WException
  | .wormholeError m => .wormholeErr m
  | .value v => .wormholeClosed v

/-- Outcome with which a deferred is fired: `callback` with a code string, a
bytes value or a close result, or `errback` with an exception. -/
inductive Outcome where
  | okStr (s : String)
  | okBytes (b : Bytes)
  | okResult (r : WResult)
  | fail (e : WException)
deriving DecidableEq

/-- Append-only log of deferred resolutions: `(d, o)` means deferred `d` was
fired with outcome `o`. -/
abbrev Log := List (Nat × Outcome)

/-- Whether deferred `d` has already been fired (Twisted's `called` flag). -/
def resolvedIn (log : Log) (d : Nat) : Bool :=
  log.any (fun p => p.1 == d)

/-- Number of resolutions recorded for deferred `d` (an uncorrupted run never
lets this exceed 1 for any `d`). -/
def resCount (log : Log) (d : Nat) : Nat :=
  (log.filter (fun p => p.1 == d)).length

/-- Fire each deferred in `ds` (in order) with outcome `o`.  Mirrors the Python
loops `for d in observers: d.callback(...)` / `d.errback(...)`: firing an
already-called deferred raises `AlreadyCalledError`, aborting the loop; the
`Bool` result is `true` exactly when that happened, and the returned log holds
whatever resolutions were performed before the abort. -/
def fireList (log : Log) (ds : List Nat) (o : Outcome) : Log × Bool :=
  match ds with
  | [] => (log, false)
  | d :: rest =>
    if resolvedIn log d then (log, true)
    else fireList (log ++ [(d, o)]) rest o

/-- Argument value passed in a Boss call (Python positional arguments; a
function object such as the default logger `_log` is identified by name). -/
inductive PyArg where
  | nat (n : Nat)
  | str (s : String)
  | bytes (b : Bytes)
  | fn (name : String)
deriving DecidableEq

/-- One call made on the Boss object: the attribute name looked up on
`self._boss` and the arguments passed to it. -/
structure BossCall where
  method : String
  args : List PyArg
deriving DecidableEq

/-- Default `code_length` of `allocate_code` (both frontends). -/
def DEFAULT_CODE_LENGTH : Nat := 2

/-- Default `which` string of `debug_set_trace` (both frontends). -/
def DEFAULT_TRACE_WHICH : String := "B N M S O K R RC NL C T"

/-- State of a `_DeferredWormhole` instance: its `__init__` attributes, plus a
counter for allocating deferred identifiers and the record of Boss calls made
so far. -/
structure DeferredWormhole where
  nextId : Nat
  code : Option String
  code_observers : List Nat
  verifier : Option Bytes
  verifier_observers : List Nat
  received_data : List Bytes
  received_observers : List Nat
  closed_observers : List Nat
  cmds : List BossCall
deriving DecidableEq

/-- Freshly constructed `_DeferredWormhole()` (the `__init__` body). -/
def DeferredWormhole.initial : DeferredWormhole :=
  ⟨0, none, [], none, [], [], [], [], []⟩

/-- Python truthiness of an optional string attribute (`if self._code:`):
`None` and `""` are falsy. -/
def pyTruthyStr : Option String → Bool
  | none => false
  | some s => !s.isEmpty

/-- Python truthiness of an optional bytes attribute (`if self._verifier:`):
`None` and empty bytes are falsy. -/
def pyTruthyBytes : Option Bytes → Bool
  | none => false
  | some b => !b.isEmpty

/-- What a `when_*` call hands back to the consumer: an already-fired deferred
(`defer.succeed(v)`) or a fresh pending deferred that was appended to the
corresponding observer list. -/
inductive FutureResult where
  | immediate (o : Outcome)
  | pending (d : Nat)
deriving DecidableEq

/-- Method `when_code` (lines 90-95): return the cached code immediately if it
is truthy, else register a fresh deferred on `_code_observers`. -/
def DeferredWormhole.when_code (s : DeferredWormhole) :
    FutureResult × DeferredWormhole :=
  if pyTruthyStr s.code then
    (.immediate (.okStr (s.code.getD "")), s)
  else
    (.pending s.nextId,
     { s with nextId := s.nextId + 1,
              code_observers := s.code_observers ++ [s.nextId] })

/-- Method `when_verifier` (lines 97-102): same pattern on the Verifier
channel. -/
def DeferredWormhole.when_verifier (s : DeferredWormhole) :
    FutureResult × DeferredWormhole :=
  if pyTruthyBytes s.verifier then
    (.immediate (.okBytes (s.verifier.getD [])), s)
  else
    (.pending s.nextId,
     { s with nextId := s.nextId + 1,
              verifier_observers := s.verifier_observers ++ [s.nextId] })

/-- Method `when_received` (lines 104-109): pop and return the oldest buffered
message if the buffer is non-empty, else register a fresh deferred on
`_received_observers`. -/
def DeferredWormhole.when_received (s : DeferredWormhole) :
    FutureResult × DeferredWormhole :=
  match s.received_data with
  | p :: rest => (.immediate (.okBytes p), { s with received_data := rest })
  | [] =>
    (.pending s.nextId,
     { s with nextId := s.nextId + 1,
              received_observers := s.received_observers ++ [s.nextId] })

/-- Command `allocate_code` (lines 111-112): forwards to
`self._boss.allocate_code(code_length)`. -/
def DeferredWormhole.allocate_code (s : DeferredWormhole) (code_length : Nat) :
    DeferredWormhole :=
  { s with cmds := s.cmds ++ [⟨"allocate_code", [.nat code_length]⟩] }

/-- Command `input_code` (lines 113-114): forwards to
`self._boss.input_code(stdio)`. -/
def DeferredWormhole.input_code (s : DeferredWormhole) (stdio : String) :
    DeferredWormhole :=
  { s with cmds := s.cmds ++ [⟨"input_code", [.str stdio]⟩] }

/-- Command `set_code` (lines 115-116): forwards to
`self._boss.set_code(code)`. -/
def DeferredWormhole.set_code (s : DeferredWormhole) (code : String) :
    DeferredWormhole :=
  { s with cmds := s.cmds ++ [⟨"set_code", [.str code]⟩] }

/-- Command `send` (lines 118-119): forwards to
`self._boss.send(plaintext)`. -/
def DeferredWormhole.send (s : DeferredWormhole) (plaintext : Bytes) :
    DeferredWormhole :=
  { s with cmds := s.cmds ++ [⟨"send", [.bytes plaintext]⟩] }

/-- Command `close` (lines 120-124): forwards to `self._boss.close()`, then
registers and returns a fresh deferred on `_closed_observers`. -/
def DeferredWormhole.close (s : DeferredWormhole) : Nat × DeferredWormhole :=
  (s.nextId,
   { s with nextId := s.nextId + 1,
            closed_observers := s.closed_observers ++ [s.nextId],
            cmds := s.cmds ++ [⟨"close", []⟩] })

/-- Command `debug_set_trace` (lines 126-128): forwards to
`self._boss._set_trace(client_name, which, logger)` — note the underscored
attribute name, unlike the delegated frontend. -/
def DeferredWormhole.debug_set_trace (s : DeferredWormhole)
    (client_name which logger : String) : DeferredWormhole :=
  { s with cmds := s.cmds ++
      [⟨"_set_trace", [.str client_name, .str which, .fn logger]⟩] }

/-- Event `got_code` (lines 131-135): cache the code, fire every registered
Code observer with it, then clear the observer list.  The cache assignment
precedes the loop; the clearing (`self._code_observers[:] = []`) runs only if
the loop finishes without raising. -/
def DeferredWormhole.got_code (s : DeferredWormhole) (log : Log)
    (code : String) : DeferredWormhole × Log × Bool :=
  let s1 := { s with code := some code }
  match fireList log s.code_observers (.okStr code) with
  | (log1, true) => (s1, log1, true)
  | (log1, false) => ({ s1 with code_observers := [] }, log1, false)

/-- Event `got_verifier` (lines 136-140): same pattern on the Verifier
channel. -/
def DeferredWormhole.got_verifier (s : DeferredWormhole) (log : Log)
    (verifier : Bytes) : DeferredWormhole × Log × Bool :=
  let s1 := { s with verifier := some verifier }
  match fireList log s.verifier_observers (.okBytes verifier) with
  | (log1, true) => (s1, log1, true)
  | (log1, false) => ({ s1 with verifier_observers := [] }, log1, false)

/-- Event `received` (lines 142-146): if an observer is pending, pop the
oldest and fire it with the plaintext (the pop happens before the callback, so
it survives an `AlreadyCalledError`); otherwise append the plaintext to the
buffer. -/
def DeferredWormhole.received (s : DeferredWormhole) (log : Log)
    (plaintext : Bytes) : DeferredWormhole × Log × Bool :=
  match s.received_observers with
  | [] => ({ s with received_data := s.received_data ++ [plaintext] }, log, false)
  | d :: rest =>
    let s1 := { s with received_observers := rest }
    if resolvedIn log d then (s1, log, true)
    else (s1, log ++ [(d, .okBytes plaintext)], false)

/-- Event `closed` (lines 148-159): derive the exception from `result`, errback
every Verifier observer, then every Received observer, then callback every
closed observer with the raw `result`.  No observer list is cleared and no
attribute is assigned; the debug `print` has no modelled effect. -/
def DeferredWormhole.closed (s : DeferredWormhole) (log : Log)
    (result : WResult) : DeferredWormhole × Log × Bool :=
  let e := closeToException result
  match fireList log s.verifier_observers (.fail e) with
  | (log1, true) => (s, log1, true)
  | (log1, false) =>
    match fireList log1 s.received_observers (.fail e) with
    | (log2, true) => (s, log2, true)
    | (log2, false) =>
      let (log3, err) := fireList log2 s.closed_observers (.okResult result)
      (s, log3, err)

/-- Command `allocate_code` of `_DelegatedWormhole` (lines 46-47): calls
`self._boss.allocate_code(code_length)`. -/
def DelegatedWormhole.allocate_code (code_length : Nat) : BossCall :=
  ⟨"allocate_code", [.nat code_length]⟩

/-- Command `input_code` of `_DelegatedWormhole` (lines 48-49): calls
`self._boss.input_code(stdio)`. -/
def DelegatedWormhole.input_code (stdio : String) : BossCall :=
  ⟨"input_code", [.str stdio]⟩

/-- Command `set_code` of `_DelegatedWormhole` (lines 50-51): calls
`self._boss.set_code(code)`. -/
def DelegatedWormhole.set_code (code : String) : BossCall :=
  ⟨"set_code", [.str code]⟩

/-- Command `send` of `_DelegatedWormhole` (lines 53-54): calls
`self._boss.send(plaintext)`. -/
def DelegatedWormhole.send (plaintext : Bytes) : BossCall :=
  ⟨"send", [.bytes plaintext]⟩

/-- Command `close` of `_DelegatedWormhole` (lines 55-56): calls
`self._boss.close()` and returns nothing. -/
def DelegatedWormhole.close : BossCall :=
  ⟨"close", []⟩

/-- Command `debug_set_trace` of `_DelegatedWormhole` (lines 58-60): calls
`self._boss.set_trace(client_name, which, logger)` — no leading underscore on
the attribute name. -/
def DelegatedWormhole.debug_set_trace (client_name which logger : String) :
    BossCall :=
  ⟨"set_trace", [.str client_name, .str which, .fn logger]⟩

/-- Iterate `when_code` a given number of times, collecting the identifiers of
the deferreds that were registered as pending waiters (calls answered
immediately from the cache register nothing). -/
def DeferredWormhole.registerCodeWaiters :
    DeferredWormhole → Nat → DeferredWormhole × List Nat
  | s, 0 => (s, [])
  | s, n + 1 =>
    match s.when_code with
    | (.pending d, s1) =>
      let (s2, ds) := s1.registerCodeWaiters n
      (s2, d :: ds)
    | (.immediate _, s1) => s1.registerCodeWaiters n

/-- Helper: nothing is resolved in the empty log. -/
theorem resolvedIn_nil (d : Nat) : resolvedIn [] d = false := rfl

/-- Helper: resolution status distributes over log concatenation. -/
theorem resolvedIn_append (l1 l2 : Log) (d : Nat) :
    resolvedIn (l1 ++ l2) d = (resolvedIn l1 d || resolvedIn l2 d) := by
  simp [resolvedIn, List.any_append]

/-- Helper: resolution status in a log built by firing a whole list. -/
theorem resolvedIn_map (ds : List Nat) (o : Outcome) (d : Nat) :
    resolvedIn (ds.map (fun x => (x, o))) d = ds.any (fun x => x == d) := by
  induction ds with
  | nil => rfl
  | cons x rest ih =>
    simp only [resolvedIn, List.map_cons, List.any_cons] at ih ⊢
    rw [ih]

/-- Helper: a deferred not in `ds` is unresolved in the log firing `ds`. -/
theorem resolvedIn_map_of_not_mem (ds : List Nat) (o : Outcome) (d : Nat)
    (h : d ∉ ds) :
    resolvedIn (ds.map (fun x => (x, o))) d = false := by
  rw [resolvedIn_map]
  rw [List.any_eq_false]
  intro x hx
  simp only [beq_iff_eq]
  exact fun he => h (he ▸ hx)

/-- Helper: resolution counts distribute over log concatenation. -/
theorem resCount_append (l1 l2 : Log) (d : Nat) :
    resCount (l1 ++ l2) d = resCount l1 d + resCount l2 d := by
  simp [resCount, List.filter_append]

/-- Helper: resolution count in a log that fires each element of `ds` once. -/
theorem resCount_map (ds : List Nat) (o : Outcome) (d : Nat) :
    resCount (ds.map (fun x => (x, o))) d = ds.count d := by
  induction ds with
  | nil => rfl
  | cons x rest ih =>
    by_cases h : x = d
    · subst h
      simp [resCount, List.filter_cons, List.count_cons] at *
      omega
    · have hb : (x == d) = false := by simpa using h
      simp [resCount, List.filter_cons, List.count_cons, hb] at *
      simpa [hb] using ih

/-- Helper: an unresolved deferred has resolution count zero. -/
theorem resCount_eq_zero (log : Log) (d : Nat) (h : resolvedIn log d = false) :
    resCount log d = 0 := by
  induction log with
  | nil => rfl
  | cons p rest ih =>
    simp only [resolvedIn, List.any_cons, Bool.or_eq_false_iff] at h
    simp only [resCount, List.filter_cons]
    rw [if_neg (by simp [h.1])]
    exact ih h.2

/-- Helper: a deferred in `ds` with nodup `ds` is fired exactly once. -/
theorem resCount_map_of_mem (ds : List Nat) (o : Outcome) (d : Nat)
    (hnd : ds.Nodup) (hm : d ∈ ds) :
    resCount (ds.map (fun x => (x, o))) d = 1 := by
  rw [resCount_map]
  exact List.count_eq_one_of_mem hnd hm

/-- Helper: a deferred outside `ds` is not fired by `ds`. -/
theorem resCount_map_of_not_mem (ds : List Nat) (o : Outcome) (d : Nat)
    (hm : d ∉ ds) :
    resCount (ds.map (fun x => (x, o))) d = 0 := by
  rw [resCount_map]
  exact List.count_eq_zero.mpr hm

/-- Helper: firing an empty list leaves the log untouched. -/
theorem fireList_nil (log : Log) (o : Outcome) :
    fireList log [] o = (log, false) := rfl

/-- Helper: firing a list with an already-resolved head raises at once,
recording nothing. -/
theorem fireList_cons_resolved (log : Log) (d : Nat) (rest : List Nat)
    (o : Outcome) (h : resolvedIn log d = true) :
    fireList log (d :: rest) o = (log, true) := by
  simp [fireList, h]

/-- Helper: firing a list with an unresolved head records the head and
continues. -/
theorem fireList_cons_unresolved (log : Log) (d : Nat) (rest : List Nat)
    (o : Outcome) (h : resolvedIn log d = false) :
    fireList log (d :: rest) o = fireList (log ++ [(d, o)]) rest o := by
  simp [fireList, h]

/-- Helper: firing a nodup list of all-unresolved deferreds appends one
resolution per deferred, in order, and does not raise. -/
theorem fireList_clean (ds : List Nat) (log : Log) (o : Outcome)
    (hnd : ds.Nodup) (hun : ∀ d ∈ ds, resolvedIn log d = false) :
    fireList log ds o = (log ++ ds.map (fun x => (x, o)), false) := by
  induction ds generalizing log with
  | nil => simp [fireList]
  | cons d rest ih =>
    rw [List.nodup_cons] at hnd
    rw [fireList_cons_unresolved log d rest o (hun d (List.mem_cons_self d rest))]
    rw [ih (log ++ [(d, o)]) hnd.2 ?_]
    · simp
    · intro x hx
      rw [resolvedIn_append, hun x (List.mem_cons_of_mem _ hx), Bool.false_or]
      have hne : d ≠ x := fun he => hnd.1 (he ▸ hx)
      simp [resolvedIn, hne]

/-- Helper: `fireList` only appends to the log. -/
theorem fireList_extends (log : Log) (ds : List Nat) (o : Outcome) :
    ∃ t, (fireList log ds o).1 = log ++ t := by
  induction ds generalizing log with
  | nil => exact ⟨[], by simp [fireList]⟩
  | cons d rest ih =>
    by_cases h : resolvedIn log d = true
    · exact ⟨[], by simp [fireList_cons_resolved log d rest o h]⟩
    · rw [Bool.not_eq_true] at h
      obtain ⟨t, ht⟩ := ih (log ++ [(d, o)])
      refine ⟨(d, o) :: t, ?_⟩
      rw [fireList_cons_unresolved log d rest o h, ht]
      simp

/-- Helper: a deferred resolved before `fireList` stays resolved after. -/
theorem resolvedIn_fireList_of_resolved (log : Log) (ds : List Nat)
    (o : Outcome) (d : Nat) (h : resolvedIn log d = true) :
    resolvedIn (fireList log ds o).1 d = true := by
  obtain ⟨t, ht⟩ := fireList_extends log ds o
  rw [ht, resolvedIn_append, h, Bool.true_or]

/-- Helper: when `fireList` completes without raising, every listed deferred
is resolved in the resulting log. -/
theorem fireList_resolves (log : Log) (ds : List Nat) (o : Outcome)
    (h : (fireList log ds o).2 = false) :
    ∀ d ∈ ds, resolvedIn (fireList log ds o).1 d = true := by
  induction ds generalizing log with
  | nil => intro d hd; cases hd
  | cons x rest ih =>
    by_cases hx : resolvedIn log x = true
    · rw [fireList_cons_resolved log x rest o hx] at h
      cases h
    · rw [Bool.not_eq_true] at hx
      rw [fireList_cons_unresolved log x rest o hx] at h ⊢
      intro d hd
      rcases List.mem_cons.mp hd with rfl | hdr
      · exact resolvedIn_fireList_of_resolved _ rest o d
          (by rw [resolvedIn_append]; simp [resolvedIn])
      · exact ih _ h d hdr

/-- Helper: firing a list never resolves an already-resolved deferred a second
time — its resolution count is unchanged. -/
theorem resCount_fireList_of_resolved (log : Log) (ds : List Nat) (o : Outcome)
    (d : Nat) (h : resolvedIn log d = true) :
    resCount (fireList log ds o).1 d = resCount log d := by
  induction ds generalizing log with
  | nil => simp [fireList]
  | cons x rest ih =>
    by_cases hx : resolvedIn log x = true
    · rw [fireList_cons_resolved log x rest o hx]
    · rw [Bool.not_eq_true] at hx
      have hne : x ≠ d := fun he => by rw [he, h] at hx; cases hx
      rw [fireList_cons_unresolved log x rest o hx]
      rw [ih (log ++ [(x, o)]) (by rw [resolvedIn_append, h]; simp)]
      rw [resCount_append]
      simp [resCount, List.filter_cons, hne]

/-- Helper: while no code has arrived, every `when_code` call registers a
fresh pending deferred; `n` consecutive calls register the block of
identifiers `nextId, nextId+1, ..., nextId+n-1`, in order. -/
theorem registerCodeWaiters_spec (n : Nat) (s : DeferredWormhole)
    (h : s.code = none) :
    s.registerCodeWaiters n =
      ({ s with nextId := s.nextId + n,
                code_observers := s.code_observers ++ List.range' s.nextId n },
       List.range' s.nextId n) := by
  induction n generalizing s with
  | zero => simp [DeferredWormhole.registerCodeWaiters]
  | succ n ih =>
    have hw : s.when_code =
        (.pending s.nextId,
         { s with nextId := s.nextId + 1,
                  code_observers := s.code_observers ++ [s.nextId] }) := by
      simp [DeferredWormhole.when_code, h, pyTruthyStr]
    rw [DeferredWormhole.registerCodeWaiters]
    simp only [hw]
    rw [ih { s with nextId := s.nextId + 1,
                    code_observers := s.code_observers ++ [s.nextId] } h]
    simp [List.range'_succ, List.append_assoc, Nat.add_assoc, Nat.add_comm,
          Nat.add_left_comm]

/-- Helper: on a state whose Code observers are distinct and unresolved,
`got_code` caches the code, appends one `callback` resolution per observer in
list order, clears the observer list, and raises nothing. -/
theorem got_code_clean (s : DeferredWormhole) (log : Log) (c : String)
    (hnd : s.code_observers.Nodup)
    (hun : ∀ d ∈ s.code_observers, resolvedIn log d = false) :
    s.got_code log c =
      ({ s with code := some c, code_observers := [] },
       log ++ s.code_observers.map (fun x => (x, Outcome.okStr c)), false) := by
  have hfl := fireList_clean s.code_observers log (Outcome.okStr c) hnd hun
  simp only [DeferredWormhole.got_code]
  rw [hfl]

/-- Helper: same as `got_code_clean` on the Verifier channel. -/
theorem got_verifier_clean (s : DeferredWormhole) (log : Log) (v : Bytes)
    (hnd : s.verifier_observers.Nodup)
    (hun : ∀ d ∈ s.verifier_observers, resolvedIn log d = false) :
    s.got_verifier log v =
      ({ s with verifier := some v, verifier_observers := [] },
       log ++ s.verifier_observers.map (fun x => (x, Outcome.okBytes v)),
       false) := by
  have hfl := fireList_clean s.verifier_observers log (Outcome.okBytes v) hnd hun
  simp only [DeferredWormhole.got_verifier]
  rw [hfl]

/-- C1: Cache-and-broadcast for the Code channel.  From a fresh session, `n`
`when_code()` calls issued before `got_code c` each register a pending future;
firing `got_code c` raises nothing, resolves all `n` futures with exactly `c`
(in registration order) and each exactly once, caches `c`, and clears the Code
waiter list. -/
theorem C1_cache_and_broadcast (n : Nat) (c : String) :
    (DeferredWormhole.initial.registerCodeWaiters n).2.length = n ∧
    ((DeferredWormhole.initial.registerCodeWaiters n).1.got_code [] c).2.2
      = false ∧
    ((DeferredWormhole.initial.registerCodeWaiters n).1.got_code [] c).1.code
      = some c ∧
    ((DeferredWormhole.initial.registerCodeWaiters n).1.got_code
        [] c).1.code_observers = [] ∧
    ((DeferredWormhole.initial.registerCodeWaiters n).1.got_code [] c).2.1 =
      (DeferredWormhole.initial.registerCodeWaiters n).2.map
        (fun d => (d, Outcome.okStr c)) ∧
    ∀ d ∈ (DeferredWormhole.initial.registerCodeWaiters n).2,
      resCount ((DeferredWormhole.initial.registerCodeWaiters n).1.got_code
        [] c).2.1 d = 1 := by
  have hreg : DeferredWormhole.initial.registerCodeWaiters n =
      (⟨n, none, List.range' 0 n, none, [], [], [], [], []⟩,
       List.range' 0 n) := by
    rw [registerCodeWaiters_spec n DeferredWormhole.initial rfl]
    simp [DeferredWormhole.initial]
  have hgc : ((DeferredWormhole.initial.registerCodeWaiters n).1.got_code
      [] c) =
      (⟨n, some c, [], none, [], [], [], [], []⟩,
       (List.range' 0 n).map (fun x => (x, Outcome.okStr c)), false) := by
    rw [hreg]
    rw [got_code_clean _ [] c (List.nodup_range' 0 n) (fun d _ => rfl)]
    simp
  rw [hgc, hreg]
  refine ⟨by simp, rfl, rfl, rfl, rfl, ?_⟩
  intro d hd
  exact resCount_map_of_mem _ _ _ (List.nodup_range' 0 n) (by simpa using hd)

/-- C2: FIFO received delivery.  With no pending Received waiters, after
`received m1`, `received m2`, `received m3` from a fresh session, three
subsequent `when_received()` calls resolve immediately, in order, with
`m1`, `m2`, `m3`; and whenever a waiter is pending, `received p` pops the
oldest pending waiter and resolves it with `p` instead of buffering `p`. -/
theorem C2_fifo_received (m1 m2 m3 p : Bytes) (s : DeferredWormhole)
    (log : Log) (d : Nat) (rest : List Nat)
    (h1 : s.received_observers = d :: rest)
    (h2 : resolvedIn log d = false) :
    ((((DeferredWormhole.initial.received [] m1).1.received [] m2).1.received
        [] m3).1.when_received).1
      = FutureResult.immediate (Outcome.okBytes m1) ∧
    (((((DeferredWormhole.initial.received [] m1).1.received [] m2).1.received
        [] m3).1.when_received).2.when_received).1
      = FutureResult.immediate (Outcome.okBytes m2) ∧
    ((((((DeferredWormhole.initial.received [] m1).1.received [] m2).1.received
        [] m3).1.when_received).2.when_received).2.when_received).1
      = FutureResult.immediate (Outcome.okBytes m3) ∧
    s.received log p =
      ({ s with received_observers := rest },
       log ++ [(d, Outcome.okBytes p)], false) := by
  refine ⟨rfl, rfl, rfl, ?_⟩
  simp [DeferredWormhole.received, h1, h2]

/-- C2 witness: the waiter-pending clause of `C2_fifo_received` at a concrete
state with one pending Received waiter. -/
theorem C2_fifo_received_witness :
    (⟨6, none, [], none, [], [], [5], [], []⟩ :
        DeferredWormhole).received_observers = 5 :: [] ∧
    resolvedIn [] 5 = false ∧
    ((⟨6, none, [], none, [], [], [5], [], []⟩ :
        DeferredWormhole).received [] [7, 8]) =
      (⟨6, none, [], none, [], [], [], [], []⟩,
       [(5, Outcome.okBytes [7, 8])], false) := by
  refine ⟨rfl, rfl, ?_⟩
  have h := C2_fifo_received [] [] [] [7, 8]
    ⟨6, none, [], none, [], [], [5], [], []⟩ [] 5 [] rfl rfl
  simpa using h.2.2.2

/-- Helper: on a state whose Verifier, Received and closed observers are
pairwise distinct and unresolved in the log, `closed` errbacks every Verifier
observer, then every Received observer, then calls back every closed observer
with the raw result, in that order, raising nothing — and leaves every field
of the state untouched (no list is cleared, nothing is recorded about the
closure). -/
theorem closed_clean (s : DeferredWormhole) (log : Log) (r : WResult)
    (hnd : (s.verifier_observers ++ s.received_observers ++
            s.closed_observers).Nodup)
    (hun : ∀ d ∈ s.verifier_observers ++ s.received_observers ++
            s.closed_observers, resolvedIn log d = false) :
    s.closed log r =
      (s, log ++ s.verifier_observers.map
              (fun x => (x, Outcome.fail (closeToException r)))
            ++ s.received_observers.map
              (fun x => (x, Outcome.fail (closeToException r)))
            ++ s.closed_observers.map (fun x => (x, Outcome.okResult r)),
       false) := by
  simp only [List.nodup_append, List.disjoint_append_left] at hnd
  obtain ⟨⟨hV, hR, dVR⟩, hC, dVC, dRC⟩ := hnd
  have hunV : ∀ d ∈ s.verifier_observers, resolvedIn log d = false :=
    fun d hd => hun d (by simp [hd])
  have hunR : ∀ d ∈ s.received_observers, resolvedIn log d = false :=
    fun d hd => hun d (by simp [hd])
  have hunC : ∀ d ∈ s.closed_observers, resolvedIn log d = false :=
    fun d hd => hun d (by simp [hd])
  have h1 := fireList_clean s.verifier_observers log
    (Outcome.fail (closeToException r)) hV hunV
  have hun2 : ∀ d ∈ s.received_observers,
      resolvedIn (log ++ s.verifier_observers.map
        (fun x => (x, Outcome.fail (closeToException r)))) d = false := by
    intro d hd
    rw [resolvedIn_append, hunR d hd, Bool.false_or]
    exact resolvedIn_map_of_not_mem _ _ _ (fun hv => dVR hv hd)
  have h2 := fireList_clean s.received_observers
    (log ++ s.verifier_observers.map
      (fun x => (x, Outcome.fail (closeToException r))))
    (Outcome.fail (closeToException r)) hR hun2
  have hun3 : ∀ d ∈ s.closed_observers,
      resolvedIn (log ++ s.verifier_observers.map
          (fun x => (x, Outcome.fail (closeToException r)))
        ++ s.received_observers.map
          (fun x => (x, Outcome.fail (closeToException r)))) d = false := by
    intro d hd
    rw [resolvedIn_append, resolvedIn_append, hunC d hd, Bool.false_or]
    rw [resolvedIn_map_of_not_mem _ _ _ (fun hv => dVC hv hd), Bool.false_or]
    exact resolvedIn_map_of_not_mem _ _ _ (fun hv => dRC hv hd)
  have h3 := fireList_clean s.closed_observers
    (log ++ s.verifier_observers.map
        (fun x => (x, Outcome.fail (closeToException r)))
      ++ s.received_observers.map
        (fun x => (x, Outcome.fail (closeToException r))))
    (Outcome.okResult r) hC hun3
  simp only [DeferredWormhole.closed, h1, h2, h3]

/-- C3: Close drains Verifier and Received waiters.  If `closed r` fires while
Verifier and Received waiters are pending (distinct, unresolved), the call
raises nothing and every pending Verifier waiter and every pending Received
waiter is resolved exactly once with the error derived from `r` (`r` itself
when it is a `WormholeError`, otherwise `WormholeClosed` wrapping `r`), while
pending Code waiters are not force-resolved by closure. -/
theorem C3_close_drains (s : DeferredWormhole) (log : Log) (r : WResult)
    (hnd : (s.verifier_observers ++ s.received_observers ++
            s.closed_observers).Nodup)
    (hun : ∀ d ∈ s.verifier_observers ++ s.received_observers ++
            s.closed_observers, resolvedIn log d = false)
    (hcode : ∀ d ∈ s.code_observers, resolvedIn log d = false ∧
            d ∉ s.verifier_observers ++ s.received_observers ++
                s.closed_observers) :
    (s.closed log r).2.2 = false ∧
    (∀ d ∈ s.verifier_observers,
      (d, Outcome.fail (match r with
            | WResult.wormholeError m => WException.wormholeErr m
            | WResult.value v => WException.wormholeClosed v))
          ∈ (s.closed log r).2.1 ∧
      resCount (s.closed log r).2.1 d = 1) ∧
    (∀ d ∈ s.received_observers,
      (d, Outcome.fail (match r with
            | WResult.wormholeError m => WException.wormholeErr m
            | WResult.value v => WException.wormholeClosed v))
          ∈ (s.closed log r).2.1 ∧
      resCount (s.closed log r).2.1 d = 1) ∧
    (∀ d ∈ s.code_observers, resolvedIn (s.closed log r).2.1 d = false) := by
  have hmatch : (match r with
      | WResult.wormholeError m => WException.wormholeErr m
      | WResult.value v => WException.wormholeClosed v) = closeToException r := by
    cases r <;> rfl
  have hdisj := hnd
  simp only [List.nodup_append, List.disjoint_append_left] at hdisj
  obtain ⟨⟨hV, hR, dVR⟩, hC, dVC, dRC⟩ := hdisj
  rw [closed_clean s log r hnd hun, hmatch]
  refine ⟨rfl, ?_, ?_, ?_⟩
  · intro d hd
    constructor
    · simp only [List.mem_append]
      exact Or.inl (Or.inl (Or.inr (List.mem_map_of_mem _ hd)))
    · rw [resCount_append, resCount_append, resCount_append]
      rw [resCount_eq_zero log d (hun d (by simp [hd]))]
      rw [resCount_map_of_mem _ _ _ hV hd]
      rw [resCount_map_of_not_mem _ _ _ (fun hm => dVR hd hm)]
      rw [resCount_map_of_not_mem _ _ _ (fun hm => dVC hd hm)]
  · intro d hd
    constructor
    · simp only [List.mem_append]
      exact Or.inl (Or.inr (List.mem_map_of_mem _ hd))
    · rw [resCount_append, resCount_append, resCount_append]
      rw [resCount_eq_zero log d (hun d (by simp [hd]))]
      rw [resCount_map_of_mem _ _ _ hR hd]
      rw [resCount_map_of_not_mem _ _ _
        (fun hm : d ∈ s.verifier_observers => dVR hm hd)]
      rw [resCount_map_of_not_mem _ _ _ (fun hm => dRC hd hm)]
  · intro d hd
    obtain ⟨hdl, hdm⟩ := hcode d hd
    simp only [List.mem_append] at hdm
    push_neg at hdm
    rw [resolvedIn_append, resolvedIn_append, resolvedIn_append, hdl]
    rw [resolvedIn_map_of_not_mem _ _ _ hdm.1.1]
    rw [resolvedIn_map_of_not_mem _ _ _ hdm.1.2]
    rw [resolvedIn_map_of_not_mem _ _ _ hdm.2]
    rfl

/-- C3 witness: the drain property at a concrete state with one Code waiter
(id 3), one Verifier waiter (id 0), one Received waiter (id 1) and one close
future (id 2) pending. -/
theorem C3_close_drains_witness :
    ((⟨4, none, [3], none, [0], [], [1], [2], []⟩ :
        DeferredWormhole).closed [] (WResult.value "happy")).2.2 = false ∧
    resCount ((⟨4, none, [3], none, [0], [], [1], [2], []⟩ :
        DeferredWormhole).closed [] (WResult.value "happy")).2.1 0 = 1 ∧
    resolvedIn ((⟨4, none, [3], none, [0], [], [1], [2], []⟩ :
        DeferredWormhole).closed [] (WResult.value "happy")).2.1 3 = false := by
  have h := C3_close_drains ⟨4, none, [3], none, [0], [], [1], [2], []⟩ []
    (WResult.value "happy") (by decide) (by decide) (by decide)
  exact ⟨h.1, (h.2.1 0 (by decide)).2, h.2.2.2 3 (by decide)⟩

/-- C4 counterexample: register a Code waiter (deferred 0) and a close future
(deferred 1) on a fresh session, then fire `closed (value "lonely")`: the
terminal result is delivered (the call raises nothing and resolves the close
future), yet the Code waiter remains unresolved — refuting the claim that
every waiter, including a Code waiter, is resolved at termination. -/
theorem C4_counterexample :
    (DeferredWormhole.initial.when_code).1 = FutureResult.pending 0 ∧
    (((DeferredWormhole.initial.when_code).2.close).2.closed []
        (WResult.value "lonely")).2.2 = false ∧
    resCount (((DeferredWormhole.initial.when_code).2.close).2.closed []
        (WResult.value "lonely")).2.1 1 = 1 ∧
    resolvedIn (((DeferredWormhole.initial.when_code).2.close).2.closed []
        (WResult.value "lonely")).2.1 0 = false := by decide

/-- C4 amended: after `closed r` fires with distinct unresolved waiters
pending, every pending Verifier and Received waiter is resolved exactly once
with the terminal error, every close future is resolved exactly once with the
raw result — but pending Code waiters are left unresolved forever, not
resolved with the terminal error. -/
theorem C4_no_waiter_pending_amended (s : DeferredWormhole) (log : Log)
    (r : WResult)
    (hnd : (s.verifier_observers ++ s.received_observers ++
            s.closed_observers).Nodup)
    (hun : ∀ d ∈ s.verifier_observers ++ s.received_observers ++
            s.closed_observers, resolvedIn log d = false)
    (hcode : ∀ d ∈ s.code_observers, resolvedIn log d = false ∧
            d ∉ s.verifier_observers ++ s.received_observers ++
                s.closed_observers) :
    (s.closed log r).2.2 = false ∧
    (∀ d ∈ s.verifier_observers ++ s.received_observers,
      (d, Outcome.fail (closeToException r)) ∈ (s.closed log r).2.1 ∧
      resCount (s.closed log r).2.1 d = 1) ∧
    (∀ d ∈ s.closed_observers,
      (d, Outcome.okResult r) ∈ (s.closed log r).2.1 ∧
      resCount (s.closed log r).2.1 d = 1) ∧
    (∀ d ∈ s.code_observers, resolvedIn (s.closed log r).2.1 d = false) := by
  have hdisj := hnd
  simp only [List.nodup_append, List.disjoint_append_left] at hdisj
  obtain ⟨⟨hV, hR, dVR⟩, hC, dVC, dRC⟩ := hdisj
  rw [closed_clean s log r hnd hun]
  refine ⟨rfl, ?_, ?_, ?_⟩
  · intro d hd
    rcases List.mem_append.mp hd with hdv | hdr
    · constructor
      · simp only [List.mem_append]
        exact Or.inl (Or.inl (Or.inr (List.mem_map_of_mem _ hdv)))
      · rw [resCount_append, resCount_append, resCount_append]
        rw [resCount_eq_zero log d (hun d (by simp [hdv]))]
        rw [resCount_map_of_mem _ _ _ hV hdv]
        rw [resCount_map_of_not_mem _ _ _ (fun hm => dVR hdv hm)]
        rw [resCount_map_of_not_mem _ _ _ (fun hm => dVC hdv hm)]
    · constructor
      · simp only [List.mem_append]
        exact Or.inl (Or.inr (List.mem_map_of_mem _ hdr))
      · rw [resCount_append, resCount_append, resCount_append]
        rw [resCount_eq_zero log d (hun d (by simp [hdr]))]
        rw [resCount_map_of_mem _ _ _ hR hdr]
        rw [resCount_map_of_not_mem _ _ _
          (fun hm : d ∈ s.verifier_observers => dVR hm hdr)]
        rw [resCount_map_of_not_mem _ _ _ (fun hm => dRC hdr hm)]
  · intro d hd
    constructor
    · simp only [List.mem_append]
      exact Or.inr (List.mem_map_of_mem _ hd)
    · rw [resCount_append, resCount_append, resCount_append]
      rw [resCount_eq_zero log d (hun d (by simp [hd]))]
      rw [resCount_map_of_mem _ _ _ hC hd]
      rw [resCount_map_of_not_mem _ _ _
        (fun hm : d ∈ s.verifier_observers => dVC hm hd)]
      rw [resCount_map_of_not_mem _ _ _
        (fun hm : d ∈ s.received_observers => dRC hm hd)]
  · intro d hd
    obtain ⟨hdl, hdm⟩ := hcode d hd
    simp only [List.mem_append] at hdm
    push_neg at hdm
    rw [resolvedIn_append, resolvedIn_append, resolvedIn_append, hdl]
    rw [resolvedIn_map_of_not_mem _ _ _ hdm.1.1]
    rw [resolvedIn_map_of_not_mem _ _ _ hdm.1.2]
    rw [resolvedIn_map_of_not_mem _ _ _ hdm.2]
    rfl

/-- C4 amended witness: the amended drain/leave-pending property at a concrete
state with Code waiter 4, Verifier waiters 0 and 1, Received waiter 2 and
close future 3 pending, closed with a `WormholeError`. -/
theorem C4_no_waiter_pending_amended_witness :
    ((⟨5, none, [4], none, [0, 1], [], [2], [3], []⟩ :
        DeferredWormhole).closed [] (WResult.wormholeError "boom")).2.2
      = false ∧
    (1, Outcome.fail (closeToException (WResult.wormholeError "boom")))
      ∈ ((⟨5, none, [4], none, [0, 1], [], [2], [3], []⟩ :
        DeferredWormhole).closed [] (WResult.wormholeError "boom")).2.1 ∧
    resCount ((⟨5, none, [4], none, [0, 1], [], [2], [3], []⟩ :
        DeferredWormhole).closed [] (WResult.wormholeError "boom")).2.1 3 = 1 ∧
    resolvedIn ((⟨5, none, [4], none, [0, 1], [], [2], [3], []⟩ :
        DeferredWormhole).closed [] (WResult.wormholeError "boom")).2.1 4
      = false := by
  have h := C4_no_waiter_pending_amended
    ⟨5, none, [4], none, [0, 1], [], [2], [3], []⟩ []
    (WResult.wormholeError "boom") (by decide) (by decide) (by decide)
  exact ⟨h.1, (h.2.1 1 (by decide)).1, (h.2.2.1 3 (by decide)).2,
    h.2.2.2 4 (by decide)⟩

/-- Helper: `closed` leaves every field of the state untouched, on the normal
path and on the `AlreadyCalledError` path alike — it assigns no attribute,
clears no observer list, and records nothing about the closure. -/
theorem closed_preserves_state (s : DeferredWormhole) (log : Log)
    (r : WResult) : (s.closed log r).1 = s := by
  simp only [DeferredWormhole.closed]
  rcases h1 : fireList log s.verifier_observers
    (Outcome.fail (closeToException r)) with ⟨log1, b1⟩
  cases b1
  · rcases h2 : fireList log1 s.received_observers
      (Outcome.fail (closeToException r)) with ⟨log2, b2⟩
    cases b2
    · rcases h3 : fireList log2 s.closed_observers
        (Outcome.okResult r) with ⟨log3, b3⟩
      simp [h1, h2, h3]
    · simp [h1, h2]
  · simp [h1]

/-- C5: post-close awaiting hangs.  `closed` leaves every field of the state
untouched — it stores neither the close result nor a closed flag — so on a
session with no cached verifier and no buffered message the post-close state
is exactly the fresh state, and a subsequent `when_verifier()` or
`when_received()` registers a new pending waiter (which no later facade event
can resolve: the engine fires no events after `closed`) instead of resolving
with the close error. -/
theorem C5_post_close_pending (r : WResult) :
    (∀ s : DeferredWormhole, ∀ log : Log, (s.closed log r).1 = s) ∧
    (DeferredWormhole.initial.closed [] r).1 = DeferredWormhole.initial ∧
    ((DeferredWormhole.initial.closed [] r).1.when_verifier).1
      = FutureResult.pending 0 ∧
    ((DeferredWormhole.initial.closed [] r).1.when_received).1
      = FutureResult.pending 0 ∧
    ((DeferredWormhole.initial.closed [] r).1.when_verifier).2.verifier_observers
      = [0] := by
  have hstate : ∀ s : DeferredWormhole, ∀ log : Log, (s.closed log r).1 = s :=
    fun s log => closed_preserves_state s log r
  refine ⟨hstate, hstate _ _, ?_, ?_, ?_⟩
  · rw [hstate]
    rfl
  · rw [hstate]
    rfl
  · rw [hstate]
    rfl

/-- C6 counterexample: register one Verifier waiter, then fire
`closed (value "done")`.  The waiter's continuation is invoked (its errback
resolution is recorded) yet the stored Verifier waiter list still holds the
waiter afterwards — so the per-channel loops of `closed` do not empty the
stored waiter list before (or even after) invoking continuations, refuting
the claim. -/
theorem C6_counterexample :
    ((DeferredWormhole.initial.when_verifier).2.closed []
        (WResult.value "done")).2.1
      = [(0, Outcome.fail (WException.wormholeClosed "done"))] ∧
    ((DeferredWormhole.initial.when_verifier).2.closed []
        (WResult.value "done")).1.verifier_observers = [0] := by decide

/-- C6 amended: `got_code` and `got_verifier` clear their waiter list only
after the resolution loop finishes (and leave it in place when the loop
raises), the per-channel loops of `closed` never clear any waiter list, and
no waiter is ever resolved twice: firing a list never adds a resolution for
an already-resolved deferred (the loop raises `AlreadyCalledError` instead).
-/
theorem C6_snapshot_amended (s : DeferredWormhole) (log : Log) (c : String)
    (v : Bytes) (r : WResult) (ds : List Nat) (o : Outcome) (d : Nat)
    (h : resolvedIn log d = true) :
    (s.got_code log c).1.code_observers
      = (if (fireList log s.code_observers (Outcome.okStr c)).2 then
           s.code_observers else []) ∧
    (s.got_verifier log v).1.verifier_observers
      = (if (fireList log s.verifier_observers (Outcome.okBytes v)).2 then
           s.verifier_observers else []) ∧
    (s.closed log r).1 = s ∧
    resCount (fireList log ds o).1 d = resCount log d := by
  refine ⟨?_, ?_, closed_preserves_state s log r,
    resCount_fireList_of_resolved log ds o d h⟩
  · simp only [DeferredWormhole.got_code]
    rcases h1 : fireList log s.code_observers (Outcome.okStr c) with ⟨log1, b1⟩
    cases b1 <;> simp [h1]
  · simp only [DeferredWormhole.got_verifier]
    rcases h1 : fireList log s.verifier_observers (Outcome.okBytes v)
      with ⟨log1, b1⟩
    cases b1 <;> simp [h1]

/-- C6 amended witness: the amended property at a concrete state with one
already-resolved deferred (id 0) in the log and a Code waiter pending. -/
theorem C6_snapshot_amended_witness :
    resolvedIn [(0, Outcome.okStr "x")] 0 = true ∧
    ((⟨2, none, [1], none, [], [], [], [], []⟩ :
        DeferredWormhole).got_code [(0, Outcome.okStr "x")]
        "4-purple-sausages").1.code_observers = [] ∧
    resCount (fireList [(0, Outcome.okStr "x")] [0, 1]
        (Outcome.okStr "y")).1 0
      = resCount [(0, Outcome.okStr "x")] 0 := by
  have h := C6_snapshot_amended ⟨2, none, [1], none, [], [], [], [], []⟩
    [(0, Outcome.okStr "x")] "4-purple-sausages" [] (WResult.value "q")
    [0, 1] (Outcome.okStr "y") 0 (by decide)
  refine ⟨by decide, ?_, h.2.2.2⟩
  have h1 := h.1
  simpa using h1

/-- C7 counterexample: the two frontends do not forward `debug_set_trace` to
the same Boss operation — the delegated frontend calls the Boss attribute
`set_trace` while the deferred frontend calls `_set_trace`, so with identical
arguments the recorded Boss calls differ. -/
theorem C7_counterexample :
    (DeferredWormhole.initial.debug_set_trace "app" DEFAULT_TRACE_WHICH
        "_log").cmds
      ≠ [DelegatedWormhole.debug_set_trace "app" DEFAULT_TRACE_WHICH
          "_log"] := by
  decide

/-- C7 amended: for `allocate_code`, `input_code`, `set_code`, `send` and
`close` the two frontends forward to the same Boss operation with the same
arguments, unchanged; `debug_set_trace` forwards the same arguments in both,
but to differently named Boss attributes — `set_trace` from the delegated
frontend and `_set_trace` from the deferred one. -/
theorem C7_command_surface_amended (s : DeferredWormhole) (n : Nat)
    (stdio code : String) (p : Bytes) (cn w lg : String) :
    (s.allocate_code n).cmds = s.cmds ++ [DelegatedWormhole.allocate_code n] ∧
    (s.input_code stdio).cmds
      = s.cmds ++ [DelegatedWormhole.input_code stdio] ∧
    (s.set_code code).cmds = s.cmds ++ [DelegatedWormhole.set_code code] ∧
    (s.send p).cmds = s.cmds ++ [DelegatedWormhole.send p] ∧
    (s.close).2.cmds = s.cmds ++ [DelegatedWormhole.close] ∧
    (s.debug_set_trace cn w lg).cmds
      = s.cmds ++ [⟨"_set_trace", [.str cn, .str w, .fn lg]⟩] ∧
    DelegatedWormhole.debug_set_trace cn w lg
      = ⟨"set_trace", [.str cn, .str w, .fn lg]⟩ :=
  ⟨rfl, rfl, rfl, rfl, rfl, rfl, rfl⟩

/-- C8 counterexample: after `got_code ""` has fired (the Engine delivering an
empty code string), the code is cached, yet a later `when_code()` does not
resolve immediately with the cached value — the Python truthiness test
`if self._code:` treats the cached empty string as absent, so a fresh pending
waiter is registered instead.  This refutes the claim for the code value
`""`. -/
theorem C8_counterexample :
    (DeferredWormhole.initial.got_code [] "").1.code = some "" ∧
    ((DeferredWormhole.initial.got_code [] "").1.when_code).1
      = FutureResult.pending 0 := by
  decide

/-- C8 amended: for every non-empty code value `c`, calling `when_code()`
after `got_code c` has fired returns an immediately-resolved future carrying
the cached value `c` and leaves the state unchanged — no new waiter is
registered and nothing further is awaited. -/
theorem C8_late_subscriber_amended (s : DeferredWormhole) (log : Log)
    (c : String) (h : c.isEmpty = false) :
    ((s.got_code log c).1.when_code).1
      = FutureResult.immediate (Outcome.okStr c) ∧
    ((s.got_code log c).1.when_code).2 = (s.got_code log c).1 := by
  have hcode : (s.got_code log c).1.code = some c := by
    simp only [DeferredWormhole.got_code]
    rcases h1 : fireList log s.code_observers (Outcome.okStr c) with ⟨log1, b1⟩
    cases b1 <;> simp [h1]
  constructor <;> simp [DeferredWormhole.when_code, hcode, pyTruthyStr, h]

/-- C8 amended witness: the late-subscriber property at the concrete code
value `"7-crossover"` on a fresh session. -/
theorem C8_late_subscriber_amended_witness :
    "7-crossover".isEmpty = false ∧
    ((DeferredWormhole.initial.got_code [] "7-crossover").1.when_code).1
      = FutureResult.immediate (Outcome.okStr "7-crossover") :=
  ⟨by decide, (C8_late_subscriber_amended DeferredWormhole.initial []
      "7-crossover" (by decide)).1⟩

/-- Helper: a deferred in `ds` is resolved in the log firing `ds`. -/
theorem resolvedIn_map_of_mem (ds : List Nat) (o : Outcome) (d : Nat)
    (h : d ∈ ds) : resolvedIn (ds.map (fun x => (x, o))) d = true := by
  rw [resolvedIn_map, List.any_eq_true]
  exact ⟨d, h, by simp⟩

/-- Helper: a second `closed` on a log in which every Verifier, Received and
closed observer is already resolved records no new resolution and leaves the
state unchanged; it raises `AlreadyCalledError` exactly when some observer
list is non-empty, and is a no-op otherwise. -/
theorem closed_after_closed (s : DeferredWormhole) (L1 : Log) (r2 : WResult)
    (hv : ∀ d ∈ s.verifier_observers, resolvedIn L1 d = true)
    (hr : ∀ d ∈ s.received_observers, resolvedIn L1 d = true)
    (hc : ∀ d ∈ s.closed_observers, resolvedIn L1 d = true) :
    s.closed L1 r2 = (s, L1,
      !(s.verifier_observers.isEmpty && s.received_observers.isEmpty &&
        s.closed_observers.isEmpty)) := by
  simp only [DeferredWormhole.closed]
  rcases hV : s.verifier_observers with _ | ⟨x, xs⟩
  · rcases hR : s.received_observers with _ | ⟨y, ys⟩
    · rcases hC : s.closed_observers with _ | ⟨z, zs⟩
      · simp [fireList_nil]
      · have h3 := fireList_cons_resolved L1 z zs (Outcome.okResult r2)
          (hc z (by simp [hC]))
        simp [fireList_nil, h3]
    · have h2 := fireList_cons_resolved L1 y ys
        (Outcome.fail (closeToException r2)) (hr y (by simp [hR]))
      simp [fireList_nil, h2]
  · have h1 := fireList_cons_resolved L1 x xs
      (Outcome.fail (closeToException r2)) (hv x (by simp [hV]))
    simp [h1]

/-- C9: single terminal delivery.  A first `closed r1` on distinct unresolved
waiters succeeds; a second `closed r2` (an Engine bug) records no new
resolution whatsoever — each close future keeps exactly its single `r1`
resolution.  The duplicate invocation raises `AlreadyCalledError` (a fatal
invariant violation) whenever any close future is registered, and is ignored
(a no-op) when no observers exist at all. -/
theorem C9_single_terminal_delivery (s : DeferredWormhole) (log : Log)
    (r1 r2 : WResult)
    (hnd : (s.verifier_observers ++ s.received_observers ++
            s.closed_observers).Nodup)
    (hun : ∀ d ∈ s.verifier_observers ++ s.received_observers ++
            s.closed_observers, resolvedIn log d = false) :
    (s.closed log r1).2.2 = false ∧
    ((s.closed log r1).1.closed (s.closed log r1).2.1 r2).2.1
      = (s.closed log r1).2.1 ∧
    (∀ d ∈ s.closed_observers,
      resCount ((s.closed log r1).1.closed (s.closed log r1).2.1 r2).2.1 d
        = 1 ∧
      (d, Outcome.okResult r1)
        ∈ ((s.closed log r1).1.closed (s.closed log r1).2.1 r2).2.1) ∧
    (s.closed_observers ≠ [] →
      ((s.closed log r1).1.closed (s.closed log r1).2.1 r2).2.2 = true) ∧
    ((s.verifier_observers = [] ∧ s.received_observers = [] ∧
        s.closed_observers = []) →
      ((s.closed log r1).1.closed (s.closed log r1).2.1 r2).2.2 = false) := by
  have hdisj := hnd
  simp only [List.nodup_append, List.disjoint_append_left] at hdisj
  obtain ⟨⟨hV, hR, dVR⟩, hC, dVC, dRC⟩ := hdisj
  have h1 := closed_clean s log r1 hnd hun
  have hv1 : ∀ d ∈ s.verifier_observers, resolvedIn (log
      ++ s.verifier_observers.map
        (fun x => (x, Outcome.fail (closeToException r1)))
      ++ s.received_observers.map
        (fun x => (x, Outcome.fail (closeToException r1)))
      ++ s.closed_observers.map (fun x => (x, Outcome.okResult r1))) d
      = true := by
    intro d hd
    rw [resolvedIn_append, resolvedIn_append, resolvedIn_append]
    rw [resolvedIn_map_of_mem _ _ _ hd]
    simp
  have hr1 : ∀ d ∈ s.received_observers, resolvedIn (log
      ++ s.verifier_observers.map
        (fun x => (x, Outcome.fail (closeToException r1)))
      ++ s.received_observers.map
        (fun x => (x, Outcome.fail (closeToException r1)))
      ++ s.closed_observers.map (fun x => (x, Outcome.okResult r1))) d
      = true := by
    intro d hd
    rw [resolvedIn_append, resolvedIn_append]
    rw [resolvedIn_map_of_mem _ _ _ hd]
    simp
  have hc1 : ∀ d ∈ s.closed_observers, resolvedIn (log
      ++ s.verifier_observers.map
        (fun x => (x, Outcome.fail (closeToException r1)))
      ++ s.received_observers.map
        (fun x => (x, Outcome.fail (closeToException r1)))
      ++ s.closed_observers.map (fun x => (x, Outcome.okResult r1))) d
      = true := by
    intro d hd
    rw [resolvedIn_append]
    rw [resolvedIn_map_of_mem _ _ _ hd]
    simp
  have h2 := closed_after_closed s (log
      ++ s.verifier_observers.map
        (fun x => (x, Outcome.fail (closeToException r1)))
      ++ s.received_observers.map
        (fun x => (x, Outcome.fail (closeToException r1)))
      ++ s.closed_observers.map (fun x => (x, Outcome.okResult r1)))
    r2 hv1 hr1 hc1
  simp only [h1, h2]
  refine ⟨trivial, trivial, ?_, ?_, ?_⟩
  · intro d hd
    constructor
    · rw [resCount_append, resCount_append, resCount_append]
      rw [resCount_eq_zero log d (hun d (by simp [hd]))]
      rw [resCount_map_of_mem _ _ _ hC hd]
      rw [resCount_map_of_not_mem _ _ _
        (fun hm : d ∈ s.verifier_observers => dVC hm hd)]
      rw [resCount_map_of_not_mem _ _ _
        (fun hm : d ∈ s.received_observers => dRC hm hd)]
    · simp only [List.mem_append]
      exact Or.inr (List.mem_map_of_mem _ hd)
  · intro hne
    have hemp : s.closed_observers.isEmpty = false := by
      rcases hcl : s.closed_observers with _ | ⟨z, zs⟩
      · exact absurd hcl hne
      · rfl
    simp [hemp]
  · intro he
    simp [he.1, he.2.1, he.2.2]

/-- C9 witness: single terminal delivery at a concrete state with a Verifier
waiter (id 0) and two close futures (ids 1, 2); the duplicate `closed` records
nothing and raises. -/
theorem C9_single_terminal_delivery_witness :
    ((⟨3, none, [], none, [0], [], [], [1, 2], []⟩ :
        DeferredWormhole).closed [] (WResult.value "ok")).2.2 = false ∧
    resCount (((⟨3, none, [], none, [0], [], [], [1, 2], []⟩ :
        DeferredWormhole).closed [] (WResult.value "ok")).1.closed
        (((⟨3, none, [], none, [0], [], [], [1, 2], []⟩ :
          DeferredWormhole).closed [] (WResult.value "ok")).2.1)
        (WResult.wormholeError "dup")).2.1 1 = 1 ∧
    (((⟨3, none, [], none, [0], [], [], [1, 2], []⟩ :
        DeferredWormhole).closed [] (WResult.value "ok")).1.closed
        (((⟨3, none, [], none, [0], [], [], [1, 2], []⟩ :
          DeferredWormhole).closed [] (WResult.value "ok")).2.1)
        (WResult.wormholeError "dup")).2.2 = true := by
  have h := C9_single_terminal_delivery
    ⟨3, none, [], none, [0], [], [], [1, 2], []⟩ [] (WResult.value "ok")
    (WResult.wormholeError "dup") (by decide) (by decide)
  exact ⟨h.1, (h.2.2.1 1 (by decide)).1, h.2.2.2.1 (by decide)⟩

/-- C10: messages buffered before closure survive it.  `closed r` leaves the
received-message buffer untouched, so when the buffer is non-empty at close
time, a `when_received()` issued after `closed r` still returns the oldest
buffered payload immediately as a success value (popping it FIFO), not the
close error. -/
theorem C10_buffer_survives_close (s : DeferredWormhole) (log : Log)
    (r : WResult) (p : Bytes) (rest : List Bytes)
    (h : s.received_data = p :: rest) :
    (s.closed log r).1.received_data = p :: rest ∧
    ((s.closed log r).1.when_received).1
      = FutureResult.immediate (Outcome.okBytes p) ∧
    ((s.closed log r).1.when_received).2.received_data = rest := by
  rw [closed_preserves_state s log r]
  exact ⟨h, by simp [DeferredWormhole.when_received, h],
    by simp [DeferredWormhole.when_received, h]⟩

/-- C10 witness: a session holding two buffered messages is closed; a later
`when_received()` still pops and returns the oldest message. -/
theorem C10_buffer_survives_close_witness :
    ((⟨0, none, [], none, [], [[1], [2]], [], [], []⟩ :
        DeferredWormhole).closed [] (WResult.value "done")).1.received_data
      = [1] :: [[2]] ∧
    (((⟨0, none, [], none, [], [[1], [2]], [], [], []⟩ :
        DeferredWormhole).closed [] (WResult.value "done")).1.when_received).1
      = FutureResult.immediate (Outcome.okBytes [1]) := by
  have h := C10_buffer_survives_close
    ⟨0, none, [], none, [], [[1], [2]], [], [], []⟩ [] (WResult.value "done")
    [1] [[2]] rfl
  exact ⟨h.1, h.2.1⟩
